import Mathlib

/-!
# Syncwave — verification of the spec against `src/example.py`

The repository's visible source is the interactive demo `src/example.py`.
It registers two pydantic models (`Order`, `Customer`) with a `Syncwave`
engine and drives them through a console loop.  The synchronization engine
itself (collection stores, serializer, file binding, watcher, facade) is an
external dependency; where a claim depends on it, the relevant operation is
modelled from the spec (each such definition carries a doc comment starting
with `Modelled from the spec:`).

Stores are modelled as Python dicts: association lists keyed by `Int`,
where an upsert replaces the first entry with the given key in place
(preserving insertion order, as Python dicts do) and otherwise appends.
-/

/-- Python-dict-style upsert on an association list: replace the first
entry with key `k` in place, or append `(k, v)` at the end.  This is the
behavior of `d[k] = v` on a Python dict (insertion order preserved). -/
def dictUpsert {α : Type} (k : Int) (v : α) : List (Int × α) → List (Int × α)
  | [] => [(k, v)]
  | (k₀, v₀) :: rest => if k₀ = k then (k, v) :: rest else (k₀, v₀) :: dictUpsert k v rest

/-- Lookup by key in an association list (first match). -/
def dictLookup {α : Type} (k : Int) : List (Int × α) → Option α
  | [] => none
  | (k₀, v₀) :: rest => if k₀ = k then some v₀ else dictLookup k rest

/-- The keys of an association list, in insertion order (Python `d.keys()`). -/
def dictKeys {α : Type} (s : List (Int × α)) : List Int := s.map Prod.fst

/-!
## Demo data model (`src/example.py`)

`Order` and `Customer` mirror the two pydantic models registered with the
engine (`@syncwave.register(name="orders", key="id")` and
`@syncwave.register(name="customers", key="id")`).
-/

structure Order where
  id : Int
  product_id : Int
  quantity : Int
deriving DecidableEq, Repr

structure Customer where
  id : Int
  name : String
  age : Int
  orders : List Int
deriving DecidableEq, Repr

/-- The demo's in-memory state: the two collection stores (Python dicts keyed
by the models' `id` key field) plus a cursor into the pseudo-random oracle
used to model `random_name` / `random_age`. -/
structure DemoState where
  orders : List (Int × Order)
  customers : List (Int × Customer)
  rand : Nat
deriving DecidableEq, Repr

def emptyDemoState : DemoState := ⟨[], [], 0⟩

/-- Modelled from the spec: the engine's register decorator is not under
`src/`; per the spec's design notes the source pattern is that "model
instantiation triggers a store write" ("object construction mutates global
state").  `src/example.py` exercises exactly that: `create_initial_data` and
`main`'s add loop construct `Order`/`Customer` values without any separate
upsert call.  So constructing an `Order` commits it into the orders store,
keyed by its `id`. -/
def constructOrder (o : Order) (st : DemoState) : DemoState :=
  { st with orders := dictUpsert o.id o st.orders }

/-- Modelled from the spec: same source pattern as `constructOrder` —
constructing a `Customer` commits it into the customers store, keyed by its
`id` (see the spec's design notes on "model instantiation triggers a store
write"). -/
def constructCustomer (c : Customer) (st : DemoState) : DemoState :=
  { st with customers := dictUpsert c.id c st.customers }

/-- `create_initial_data` from `src/example.py`: constructs three orders and
two customers (construction alone, no upsert call appears anywhere in the
demo). -/
def createInitialData (st : DemoState) : DemoState :=
  st |> constructOrder ⟨1, 1, 10⟩
     |> constructOrder ⟨2, 2, 5⟩
     |> constructOrder ⟨3, 1, 20⟩
     |> constructCustomer ⟨1, "Jane Doe", 28, [1, 2]⟩
     |> constructCustomer ⟨2, "John Doe", 31, [3]⟩

/-- Python's `max` over the keys of a dict (nonempty; returns 0 on an empty
list only because `next_customer_id` never calls it on one). -/
def maxKeys {α : Type} (s : List (Int × α)) : Int :=
  match dictKeys s with
  | [] => 0
  | k :: ks => ks.foldl max k

/-- `next_customer_id` from `src/example.py`:
`(max(store.keys()) if store else 0) + 1`. -/
def nextCustomerId (s : List (Int × Customer)) : Int :=
  (if s.isEmpty then 0 else maxKeys s) + 1

/-- One iteration of `main`'s add loop: construct a `Customer` whose id is
`next_customer_id()` and whose name/age come from the random oracle. -/
def addRandomCustomer (names : Nat → String) (ages : Nat → Int)
    (st : DemoState) : DemoState :=
  let c : Customer :=
    { id := nextCustomerId st.customers
    , name := names st.rand
    , age := ages st.rand
    , orders := [] }
  { constructCustomer c st with rand := st.rand + 1 }

/-- `for _ in range(k): Customer(id=next_customer_id(), ...)`. -/
def addCustomersLoop (names : Nat → String) (ages : Nat → Int) :
    Nat → DemoState → DemoState
  | 0, st => st
  | n + 1, st => addCustomersLoop names ages n (addRandomCustomer names ages st)

/-- The ids handed out by successive `next_customer_id()` calls inside one
run of the add loop, in order. -/
def assignedIds (names : Nat → String) (ages : Nat → Int) :
    Nat → DemoState → List Int
  | 0, _ => []
  | n + 1, st =>
      nextCustomerId st.customers ::
        assignedIds names ages n (addRandomCustomer names ages st)

/-- Concrete random-name oracle, used to state closed facts about the demo. -/
def demoNames : Nat → String := fun _ => "Ada Lovelace"

/-- Concrete random-age oracle, used to state closed facts about the demo. -/
def demoAges : Nat → Int := fun _ => 30

/-!
## Python string primitives used by `main`'s command parsing

`choice = input("Command > ").strip().lower()`, `choice.split("-")[1]`,
`int(...)`.  Commands are modelled as `List Char` (ASCII scope).
-/

/-- The ASCII whitespace characters removed by Python's `str.strip()`. -/
def isPySpace (c : Char) : Bool :=
  c = ' ' || c = '\t' || c = '\n' || c = '\r' || c = '\x0b' || c = '\x0c'

/-- Python `str.strip()`: drop whitespace from both ends. -/
def pyStrip (s : List Char) : List Char :=
  ((s.dropWhile isPySpace).reverse.dropWhile isPySpace).reverse

/-- Python `str.lower()` on one ASCII character. -/
def pyLowerChar (c : Char) : Char :=
  if 65 ≤ c.toNat ∧ c.toNat ≤ 90 then Char.ofNat (c.toNat + 32) else c

/-- Python `str.lower()` (ASCII scope). -/
def pyLower (s : List Char) : List Char := s.map pyLowerChar

/-- Python `s.split("-")`: split on every `'-'`; never returns `[]`, and
keeps empty segments (`"a--3".split("-") == ["a", "", "3"]`). -/
def splitDash : List Char → List (List Char)
  | [] => [[]]
  | '-' :: rest => [] :: splitDash rest
  | c :: rest =>
      match splitDash rest with
      | [] => [[c]]
      | seg :: segs => (c :: seg) :: segs

/-- Decimal digit value, if any. -/
def digitVal (c : Char) : Option Nat :=
  if 48 ≤ c.toNat ∧ c.toNat ≤ 57 then some (c.toNat - 48) else none

/-- Digits after the first one, allowing single underscores between digits
as Python's `int()` does (`int("1_0") == 10`, `int("1__0")` raises). -/
def parseDigitsRest (acc : Nat) : List Char → Option Nat
  | [] => some acc
  | '_' :: c :: rest =>
      match digitVal c with
      | some d => parseDigitsRest (acc * 10 + d) rest
      | none => none
  | c :: rest =>
      match digitVal c with
      | some d => parseDigitsRest (acc * 10 + d) rest
      | none => none

/-- A nonempty digit string (underscores allowed between digits). -/
def parseDigits : List Char → Option Nat
  | [] => none
  | c :: rest =>
      match digitVal c with
      | some d => parseDigitsRest d rest
      | none => none

/-- Python `int(s)` on a string: optional surrounding whitespace, optional
sign directly adjacent to the digits, base 10; `none` models `ValueError`. -/
def pyInt (s : List Char) : Option Int :=
  match pyStrip s with
  | '+' :: rest => (parseDigits rest).map Int.ofNat
  | '-' :: rest => (parseDigits rest).map (fun n => -(n : Int))
  | t => (parseDigits t).map Int.ofNat

/-!
## The interactive loop of `main` (`src/example.py`)

One loop iteration is a pure step: it consumes the raw input line and the
demo state and produces the next state, the observable output, and whether
the loop breaks (`q`).
-/

/-- The observable effect of one loop iteration. -/
inductive DemoOut where
  | menu
  | printedMemory
  | printedFiles
  | addedMsg (invalidFallback : Bool) (msg : String)
  | stoppedQuit
  | unknownMsg
deriving DecidableEq, Repr

structure StepResult where
  state : DemoState
  out : DemoOut
  quit : Bool
deriving DecidableEq, Repr

/-- The `a` branch's number parsing: `1` if the command is exactly `"a"`,
else `int(choice.split("-")[1])` with fallback `1` on `ValueError` (bad
int) or `IndexError` (no second segment).  Returns (fallback-used?, n). -/
def aBranchN (choice : List Char) : Bool × Int :=
  if choice = ['a'] then (false, 1)
  else
    match (splitDash choice).get? 1 with
    | none => (true, 1)
    | some seg =>
        match pyInt seg with
        | some v => (false, v)
        | none => (true, 1)

/-- `f"Added {n} customer{'s' if n != 1 else ''}."`. -/
def addedMessage (n : Int) : String :=
  "Added " ++ toString n ++ " customer" ++ (if n ≠ 1 then "s" else "") ++ "."

/-- `input("Command > ").strip().lower()`. -/
def normalizeCmd (raw : String) : List Char := pyLower (pyStrip raw.toList)

/-- One iteration of `main`'s `while True` loop, as in `src/example.py`:
normalize the input, then match `"o"`, `"p"`, `"f"`, `startswith("a")`,
`"q"`, else print the unknown-command message. -/
def mainStep (names : Nat → String) (ages : Nat → Int)
    (raw : String) (st : DemoState) : StepResult :=
  let choice := normalizeCmd raw
  if choice = ['o'] then ⟨st, .menu, false⟩
  else if choice = ['p'] then ⟨st, .printedMemory, false⟩
  else if choice = ['f'] then ⟨st, .printedFiles, false⟩
  else if choice.head? = some 'a' then
    let r := aBranchN choice
    let st' := addCustomersLoop names ages (max 1 r.2).toNat st
    ⟨st', .addedMsg r.1 (addedMessage r.2), false⟩
  else if choice = ['q'] then ⟨st, .stoppedQuit, true⟩
  else ⟨st, .unknownMsg, false⟩

/-!
## Spec-modelled synchronization core

The engine itself (`syncwave` package) is not under `src/`; the following
definitions are modelled from the spec (sections 3, 4.2, 4.4, 4.5, 4.6).
-/

/-- A JSON-compatible value (spec 4.2: the serializer converts between a
typed record and a JSON-compatible value). -/
inductive JValue where
  | jnull
  | jbool (b : Bool)
  | jint (n : Int)
  | jstr (s : String)
  | jarr (xs : List JValue)
  | jobj (fields : List (String × JValue))
deriving Repr

mutual

/-- Deterministic JSON rendering (the bytes written to the bound file);
field order is exactly the object's field order. -/
def jsonDumps : JValue → String
  | .jnull => "null"
  | .jbool true => "true"
  | .jbool false => "false"
  | .jint n => toString n
  | .jstr s => "\"" ++ s ++ "\""
  | .jarr xs => "[" ++ jsonDumpsArr xs ++ "]"
  | .jobj fs => "\x7b" ++ jsonDumpsObj fs ++ "\x7d"

def jsonDumpsArr : List JValue → String
  | [] => ""
  | [x] => jsonDumps x
  | x :: y :: rest => jsonDumps x ++ ", " ++ jsonDumpsArr (y :: rest)

def jsonDumpsObj : List (String × JValue) → String
  | [] => ""
  | [(n, v)] => "\"" ++ n ++ "\": " ++ jsonDumps v
  | (n, v) :: f :: rest =>
      "\"" ++ n ++ "\": " ++ jsonDumps v ++ ", " ++ jsonDumpsObj (f :: rest)

end

/-- Field types supported by the modelled schema (spec 3: the key must
serialize to an integer or string scalar; fields are typed). -/
inductive FieldType where
  | tInt
  | tStr
deriving DecidableEq, Repr

/-- Modelled from the spec (3. DATA MODEL): one entry of a Schema's ordered
`field_definitions`: (name, type, required). -/
structure FieldDef where
  name : String
  ty : FieldType
  required : Bool
deriving DecidableEq, Repr

/-- Modelled from the spec (3. DATA MODEL): a Schema
{ collection_name, key_field, field_definitions }. -/
structure Schema where
  collection_name : String
  key_field : String
  field_definitions : List FieldDef
deriving DecidableEq, Repr

/-- A serialized field value. -/
inductive FieldVal where
  | vInt (n : Int)
  | vStr (s : String)
deriving DecidableEq, Repr

def FieldVal.ty : FieldVal → FieldType
  | .vInt _ => .tInt
  | .vStr _ => .tStr

/-- A record as the serializer sees it: named field values, in Schema
declaration order (absent optional fields are omitted). -/
abbrev SRecord : Type := List (String × FieldVal)

def encodeVal : FieldVal → JValue
  | .vInt n => .jint n
  | .vStr s => .jstr s

/-- Modelled from the spec (4.2): `encode(record)` — a JSON object whose
field order follows the record's (hence the Schema's) field order.
Deterministic by construction. -/
def encodeRecord (rec : SRecord) : JValue :=
  .jobj (rec.map (fun f => (f.1, encodeVal f.2)))

/-- First JSON object field with the given name. -/
def jLookup (n : String) : List (String × JValue) → Option JValue
  | [] => none
  | (n₀, v) :: rest => if n₀ = n then some v else jLookup n rest

/-- Strict coercion of a JSON value into a typed field value. -/
def coerceVal : FieldType → JValue → Option FieldVal
  | .tInt, .jint n => some (.vInt n)
  | .tStr, .jstr s => some (.vStr s)
  | _, _ => none

/-- Modelled from the spec (4.2): walk the Schema's `field_definitions` in
order; a present field must coerce to its declared type, a missing field is
a `ValidationError` when required and skipped when optional. -/
def decodeFields (fds : List FieldDef) (fs : List (String × JValue)) :
    Except String SRecord :=
  match fds with
  | [] => .ok []
  | fd :: rest =>
      match jLookup fd.name fs with
      | some jv =>
          match coerceVal fd.ty jv with
          | some v =>
              match decodeFields rest fs with
              | .ok tail => .ok ((fd.name, v) :: tail)
              | .error e => .error e
          | none => .error ("ValidationError: field " ++ fd.name ++ " has the wrong type")
      | none =>
          if fd.required then
            .error ("ValidationError: missing required field " ++ fd.name)
          else decodeFields rest fs

/-- Modelled from the spec (4.2): `decode(JSON value)` — must be a JSON
object, unknown fields are rejected (the documented reject-unknown choice),
duplicate field names are rejected, then fields are decoded in Schema
order. -/
def decodeRecord (sch : Schema) : JValue → Except String SRecord
  | .jobj fs =>
      if (fs.map Prod.fst).Nodup ∧
          ∀ n ∈ fs.map Prod.fst, n ∈ sch.field_definitions.map FieldDef.name then
        decodeFields sch.field_definitions fs
      else .error "ValidationError: unknown or duplicate field"
  | _ => .error "ValidationError: not an object"

/-- Modelled from the spec (6. EXTERNAL INTERFACES): the file holds one JSON
array of record objects per collection. -/
def encodeCollection (recs : List SRecord) : JValue :=
  .jarr (recs.map encodeRecord)

def decodeRecordList (sch : Schema) : List JValue → Except String (List SRecord)
  | [] => .ok []
  | j :: js =>
      match decodeRecord sch j with
      | .ok r =>
          match decodeRecordList sch js with
          | .ok rs => .ok (r :: rs)
          | .error e => .error e
      | .error e => .error e

/-- Modelled from the spec (4.5 step 3): decoding a whole file: a JSON array
whose elements all decode, else a failure that the reload path reports as a
`ReloadError`. -/
def decodeCollection (sch : Schema) : JValue → Except String (List SRecord)
  | .jarr xs => decodeRecordList sch xs
  | _ => .error "ValidationError: file is not a JSON array"

/-- `rec` conforms to the field definitions: it lists exactly the present
fields, in declaration order, each with its declared type, every required
field present. -/
inductive MatchesSchema : List FieldDef → List (String × FieldVal) → Prop
  | nil : MatchesSchema [] []
  | skip {fd : FieldDef} {fds : List FieldDef} {rec : List (String × FieldVal)} :
      fd.required = false → fd.name ∉ rec.map Prod.fst →
      MatchesSchema fds rec → MatchesSchema (fd :: fds) rec
  | cons {fd : FieldDef} {fds : List FieldDef} {v : FieldVal}
      {rec : List (String × FieldVal)} :
      v.ty = fd.ty → MatchesSchema fds rec →
      MatchesSchema (fd :: fds) ((fd.name, v) :: rec)

/-- A record valid for a schema. -/
def ValidRecord (sch : Schema) (rec : SRecord) : Prop :=
  MatchesSchema sch.field_definitions rec

/-- First field value with the given name in a record. -/
def recFind (n : String) : List (String × FieldVal) → Option FieldVal
  | [] => none
  | (n₀, v) :: rest => if n₀ = n then some v else recFind n rest

/-- The record's key: the value of the schema's `key_field`, which must be
an integer scalar (spec 3: the key serializes to a hashable scalar; the
demo's two collections both key by the integer `id`). -/
def recKey (sch : Schema) (r : SRecord) : Option Int :=
  match recFind sch.key_field r with
  | some (.vInt n) => some n
  | _ => none

/-- Modelled from the spec (4.3): `replace_all(records)` — the atomic bulk
replace used exclusively by the reload path; records are keyed by the
schema's key field (records without an integer key are dropped). -/
def replaceAll (sch : Schema) (recs : List SRecord) : List (Int × SRecord) :=
  recs.filterMap (fun r => (recKey sch r).map (fun k => (k, r)))

/-- The on-disk file: its bytes, and their parse (`none` models bytes that
are not valid JSON). -/
structure DiskFile where
  bytes : String
  parsed : Option JValue

/-- Modelled from the spec (3, 4.4, 4.5): one collection's slice of the
engine: the Collection Store, the bound file, the File Binding's
last-known self-originated content (the content hash is modelled by the
rendered bytes it identifies), the Watcher's detected-external-edit
counter, the count of logged `ReloadError`s, and whether the Watcher's
background loop is running. -/
structure EngineState where
  store : List (Int × SRecord)
  file : DiskFile
  lastKnownBytes : String
  externalEdits : Nat
  reloadErrors : Nat
  watcherRunning : Bool

/-- Modelled from the spec (4.4, write path): encode the full current
collection, atomically replace the file, and record the new content as
self-originated so the Watcher can recognize its own write. -/
def writeThrough (e : EngineState) : EngineState :=
  let content := encodeCollection (e.store.map Prod.snd)
  { e with file := ⟨jsonDumps content, some content⟩
         , lastKnownBytes := jsonDumps content }

/-- Modelled from the spec (4.3 `upsert` and 4.4 failure handling): insert
or replace by key in the store, then write through.  `writeOk` models
whether the disk write succeeds; on failure the file is untouched (atomic
rename), the in-memory mutation is NOT rolled back, and a
`PersistenceError` is raised to the caller. -/
def engineUpsert (writeOk : Bool) (k : Int) (r : SRecord)
    (e : EngineState) : EngineState × Except String Unit :=
  let e' := { e with store := dictUpsert k r e.store }
  if writeOk then (writeThrough e', .ok ())
  else (e', .error "PersistenceError")

/-- Modelled from the spec (4.5 step 3): read and decode the bound file;
bytes that are not valid JSON and well-formed JSON that fails validation
both fail. -/
def decodeDisk (sch : Schema) (f : DiskFile) : Except String (List SRecord) :=
  match f.parsed with
  | none => .error "ReloadError: invalid JSON"
  | some j => decodeCollection sch j

/-- Modelled from the spec (4.5, reload path): one poll iteration for one
binding.  If the loop is not running, nothing happens.  If the file content
equals the last-known (self-originated) content, do nothing.  Otherwise
count a detected external edit and reload: on successful decode,
`replace_all` and update the last-known metadata; on decode failure, log
exactly one `ReloadError` and keep the in-memory state unchanged. -/
def watcherPoll (sch : Schema) (e : EngineState) : EngineState :=
  if e.watcherRunning = false then e
  else if e.file.bytes = e.lastKnownBytes then e
  else
    let e' := { e with externalEdits := e.externalEdits + 1 }
    match decodeDisk sch e.file with
    | .ok recs =>
        { e' with store := replaceAll sch recs
                , lastKnownBytes := e.file.bytes }
    | .error _ => { e' with reloadErrors := e'.reloadErrors + 1 }

/-- The engine state after `stop()`: the Watcher loop has exited. -/
def stoppedState (e : EngineState) : EngineState :=
  { e with watcherRunning := false }

/-- Modelled from the spec (4.6): `stop()` signals the Watcher loop to exit
and waits for it; it returns normally (`Except.ok`, never an exception),
also when no background activity is in flight. -/
def stopEngine (e : EngineState) : Except String EngineState :=
  .ok (stoppedState e)

/-!
## Claim-comparison definitions and concrete fixtures
-/

/-- The text after the FIRST `'-'` of the command, if any.  This follows
claim C9's words ("parses the text after the first '-' as an integer N"),
for comparison against the code's `choice.split("-")[1]`. -/
def textAfterFirstDash : List Char → Option (List Char)
  | [] => none
  | '-' :: rest => some rest
  | _ :: rest => textAfterFirstDash rest

/-- The customer count N predicted by claim C9's words: 1 for exactly
`"a"`, else `int(text after the first '-')` with fallback 1. -/
def claimedN (choice : List Char) : Int :=
  if choice = ['a'] then 1
  else
    match textAfterFirstDash choice with
    | none => 1
    | some t => (pyInt t).getD 1

/-- A normalized input the loop recognizes: one of the menu commands
`o`/`p`/`f`/`q`, or anything `startswith("a")` (the add family). -/
def isKnownCmd (c : List Char) : Bool :=
  c == ['o'] || c == ['p'] || c == ['f'] || c == ['q'] || c.head? == some 'a'

/-- The demo's `orders` schema (`id`, `product_id`, `quantity`, all
required integers, keyed by `id`). -/
def ordersSchema : Schema :=
  ⟨"orders", "id",
    [⟨"id", .tInt, true⟩, ⟨"product_id", .tInt, true⟩, ⟨"quantity", .tInt, true⟩]⟩

/-- The spec's example order `{"id":1,"product_id":1,"quantity":10}`. -/
def sampleOrderRec : SRecord :=
  [("id", .vInt 1), ("product_id", .vInt 1), ("quantity", .vInt 10)]

/-- The same order after the spec's external-edit example (quantity 99). -/
def sampleOrderRec99 : SRecord :=
  [("id", .vInt 1), ("product_id", .vInt 1), ("quantity", .vInt 99)]

/-- A freshly registered collection: empty store, empty JSON array on disk,
recorded as self-originated, watcher running. -/
def engineState0 : EngineState :=
  ⟨[], ⟨"[]", some (.jarr [])⟩, "[]", 0, 0, true⟩

/-- An engine state whose bound file was edited externally to a record
missing the required `product_id`/`quantity` fields. -/
def engineStateBadEdit : EngineState :=
  ⟨[(1, sampleOrderRec)],
    ⟨"[\x7b\"id\": 1\x7d]", some (.jarr [.jobj [("id", .jint 1)]])⟩,
    jsonDumps (encodeCollection [sampleOrderRec]), 0, 0, true⟩

/-!
## Properties of the dict-style store
-/

theorem dictKeys_dictUpsert_of_not_mem {α : Type} (k : Int) (v : α)
    (s : List (Int × α)) (h : k ∉ dictKeys s) :
    dictUpsert k v s = s ++ [(k, v)] := by
  induction s with
  | nil => rfl
  | cons p rest ih =>
    obtain ⟨k₀, v₀⟩ := p
    simp only [dictKeys, List.map_cons, List.mem_cons] at h
    push_neg at h
    simp only [dictUpsert, if_neg (Ne.symm h.1), List.cons_append, List.cons.injEq, true_and]
    exact ih h.2

theorem dictLookup_dictUpsert_self {α : Type} (k : Int) (v : α)
    (s : List (Int × α)) : dictLookup k (dictUpsert k v s) = some v := by
  induction s with
  | nil => simp [dictUpsert, dictLookup]
  | cons p rest ih =>
    obtain ⟨k₀, v₀⟩ := p
    by_cases hk : k₀ = k
    · simp [dictUpsert, dictLookup, hk]
    · simp [dictUpsert, dictLookup, hk, ih]

theorem dictLookup_dictUpsert_ne {α : Type} (k k' : Int) (v : α)
    (s : List (Int × α)) (h : k' ≠ k) :
    dictLookup k' (dictUpsert k v s) = dictLookup k' s := by
  induction s with
  | nil => simp [dictUpsert, dictLookup, Ne.symm h]
  | cons p rest ih =>
    obtain ⟨k₀, v₀⟩ := p
    by_cases hk : k₀ = k
    · subst hk
      simp [dictUpsert, dictLookup, Ne.symm h]
    · by_cases hk' : k₀ = k'
      · simp [dictUpsert, dictLookup, hk, hk', h, ih]
      · simp [dictUpsert, dictLookup, hk, hk', ih]

theorem length_dictUpsert_of_not_mem {α : Type} (k : Int) (v : α)
    (s : List (Int × α)) (h : k ∉ dictKeys s) :
    (dictUpsert k v s).length = s.length + 1 := by
  rw [dictKeys_dictUpsert_of_not_mem k v s h]
  simp

theorem dictKeys_dictUpsert_of_mem {α : Type} (k : Int) (v : α)
    (s : List (Int × α)) (h : k ∈ dictKeys s) :
    dictKeys (dictUpsert k v s) = dictKeys s := by
  induction s with
  | nil => simp [dictKeys] at h
  | cons p rest ih =>
    obtain ⟨k₀, v₀⟩ := p
    by_cases hk : k₀ = k
    · simp [dictUpsert, dictKeys, hk]
    · simp only [dictKeys, List.map_cons, List.mem_cons] at h
      rcases h with h | h
      · exact absurd h.symm hk
      · simp only [dictUpsert, if_neg hk, dictKeys, List.map_cons, List.cons.injEq, true_and]
        exact ih h

/-- After an upsert the key `k` is present exactly once, provided the store's
keys were distinct beforehand (the store invariant). -/
theorem countP_dictUpsert_of_nodup {α : Type} (k : Int) (v : α)
    (s : List (Int × α)) (h : (dictKeys s).Nodup) :
    (dictUpsert k v s).countP (fun p => p.1 = k) = 1 := by
  induction s with
  | nil => simp [dictUpsert]
  | cons p rest ih =>
    obtain ⟨k₀, v₀⟩ := p
    simp only [dictKeys, List.map_cons, List.nodup_cons] at h
    by_cases hk : k₀ = k
    · subst hk
      have hu : dictUpsert k₀ v ((k₀, v₀) :: rest) = (k₀, v) :: rest := by
        simp [dictUpsert]
      rw [hu, List.countP_cons_of_pos _ _ (by simp)]
      have hz : rest.countP (fun p => decide (p.1 = k₀)) = 0 := by
        rw [List.countP_eq_zero]
        intro p hp
        simp only [decide_eq_true_eq]
        intro hpk
        exact h.1 (hpk ▸ List.mem_map_of_mem Prod.fst hp)
      rw [hz]
    · simp only [dictUpsert, if_neg hk]
      rw [List.countP_cons_of_neg _ _ (by simp [hk])]
      exact ih h.2

theorem nodup_dictKeys_dictUpsert {α : Type} (k : Int) (v : α)
    (s : List (Int × α)) (h : (dictKeys s).Nodup) :
    (dictKeys (dictUpsert k v s)).Nodup := by
  by_cases hm : k ∈ dictKeys s
  · rwa [dictKeys_dictUpsert_of_mem k v s hm]
  · rw [dictKeys_dictUpsert_of_not_mem k v s hm]
    simpa [dictKeys] using List.Nodup.append h (by simp) (by simpa [dictKeys] using hm)

/-!
## Properties of `next_customer_id` and the add loop
-/

theorem le_foldl_max (k : Int) (l : List Int) :
    k ≤ l.foldl max k ∧ ∀ x ∈ l, x ≤ l.foldl max k := by
  induction l generalizing k with
  | nil => simp
  | cons a t ih =>
    simp only [List.foldl_cons]
    refine ⟨le_trans (le_max_left k a) (ih (max k a)).1, ?_⟩
    intro x hx
    rcases List.mem_cons.mp hx with h | h
    · rw [h]
      exact le_trans (le_max_right k a) (ih (max k a)).1
    · exact (ih (max k a)).2 x h

theorem le_maxKeys_of_mem {α : Type} (s : List (Int × α)) (k : Int)
    (h : k ∈ dictKeys s) : k ≤ maxKeys s := by
  unfold maxKeys
  cases hs : dictKeys s with
  | nil => rw [hs] at h; simp at h
  | cons k₀ ks =>
    rw [hs] at h
    rcases List.mem_cons.mp h with h | h
    · subst h
      exact (le_foldl_max k ks).1
    · exact (le_foldl_max k₀ ks).2 k h

theorem key_lt_nextCustomerId (s : List (Int × Customer)) (k : Int)
    (h : k ∈ dictKeys s) : k < nextCustomerId s := by
  have hne : s.isEmpty = false := by
    cases s with
    | nil => simp [dictKeys] at h
    | cons p t => rfl
  unfold nextCustomerId
  rw [hne]
  simp only [Bool.false_eq_true, if_false]
  exact lt_of_le_of_lt (le_maxKeys_of_mem s k h) (by omega)

theorem nextCustomerId_not_mem (s : List (Int × Customer)) :
    nextCustomerId s ∉ dictKeys s := by
  intro h
  exact absurd (key_lt_nextCustomerId s _ h) (lt_irrefl _)

theorem customers_addRandomCustomer (names : Nat → String) (ages : Nat → Int)
    (st : DemoState) :
    (addRandomCustomer names ages st).customers
      = st.customers ++
          [(nextCustomerId st.customers,
            ⟨nextCustomerId st.customers, names st.rand, ages st.rand, []⟩)] := by
  unfold addRandomCustomer constructCustomer
  exact dictKeys_dictUpsert_of_not_mem _ _ _ (nextCustomerId_not_mem st.customers)

theorem dictKeys_addRandomCustomer (names : Nat → String) (ages : Nat → Int)
    (st : DemoState) :
    dictKeys (addRandomCustomer names ages st).customers
      = dictKeys st.customers ++ [nextCustomerId st.customers] := by
  rw [customers_addRandomCustomer]
  simp [dictKeys]

theorem length_addCustomersLoop (names : Nat → String) (ages : Nat → Int)
    (k : Nat) (st : DemoState) :
    (addCustomersLoop names ages k st).customers.length
      = st.customers.length + k := by
  induction k generalizing st with
  | zero => rfl
  | succ n ih =>
    rw [addCustomersLoop, ih, customers_addRandomCustomer]
    simp
    omega

/-!
## Serializer round-trip
-/

theorem jLookup_encode (n : String) (rec : SRecord) :
    jLookup n (rec.map (fun f => (f.1, encodeVal f.2)))
      = (recFind n rec).map encodeVal := by
  induction rec with
  | nil => rfl
  | cons f rest ih =>
    obtain ⟨n₀, v⟩ := f
    by_cases h : n₀ = n
    · simp [jLookup, recFind, h]
    · simp [jLookup, recFind, h, ih]

theorem recFind_eq_none (n : String) (rec : SRecord)
    (h : n ∉ rec.map Prod.fst) : recFind n rec = none := by
  induction rec with
  | nil => rfl
  | cons f rest ih =>
    obtain ⟨n₀, v⟩ := f
    simp only [List.map_cons, List.mem_cons] at h
    push_neg at h
    simp only [recFind, if_neg (Ne.symm h.1)]
    exact ih h.2

theorem MatchesSchema.names_subset {fds : List FieldDef} {rec : SRecord}
    (h : MatchesSchema fds rec) :
    ∀ n ∈ rec.map Prod.fst, n ∈ fds.map FieldDef.name := by
  induction h with
  | nil => simp
  | skip _ _ _ ih =>
    intro n hn
    simp only [List.map_cons, List.mem_cons]
    exact Or.inr (ih n hn)
  | cons _ _ ih =>
    intro n hn
    simp only [List.map_cons, List.mem_cons] at hn ⊢
    rcases hn with hn | hn
    · exact Or.inl hn
    · exact Or.inr (ih n hn)

theorem MatchesSchema.names_sublist {fds : List FieldDef} {rec : SRecord}
    (h : MatchesSchema fds rec) :
    (rec.map Prod.fst).Sublist (fds.map FieldDef.name) := by
  induction h with
  | nil => simp
  | skip _ _ _ ih => exact ih.cons _
  | cons _ _ ih => exact ih.cons₂ _

theorem MatchesSchema.names_nodup {fds : List FieldDef} {rec : SRecord}
    (h : MatchesSchema fds rec) (hnd : (fds.map FieldDef.name).Nodup) :
    (rec.map Prod.fst).Nodup :=
  h.names_sublist.nodup hnd

theorem coerceVal_encodeVal (v : FieldVal) (ty : FieldType) (h : v.ty = ty) :
    coerceVal ty (encodeVal v) = some v := by
  cases v with
  | vInt n => rw [← h]; rfl
  | vStr s => rw [← h]; rfl

theorem decodeFields_of_lookup (fds : List FieldDef) (rec : SRecord)
    (fs : List (String × JValue)) (hm : MatchesSchema fds rec)
    (hnd : (fds.map FieldDef.name).Nodup)
    (hfs : ∀ n ∈ fds.map FieldDef.name,
      jLookup n fs = (recFind n rec).map encodeVal) :
    decodeFields fds fs = .ok rec := by
  induction hm with
  | nil => rfl
  | @skip fd fds' rec' hreq habs hm' ih =>
    simp only [List.map_cons, List.nodup_cons] at hnd
    have hlook : jLookup fd.name fs = none := by
      rw [hfs fd.name (by simp), recFind_eq_none fd.name rec' habs]
      rfl
    rw [decodeFields, hlook, if_neg (by simp [hreq])]
    exact ih hnd.2 (fun n hn => hfs n (by simp [hn]))
  | @cons fd fds' v rec' hty hm' ih =>
    simp only [List.map_cons, List.nodup_cons] at hnd
    have hlook : jLookup fd.name fs = some (encodeVal v) := by
      rw [hfs fd.name (by simp)]
      simp [recFind]
    have ihres : decodeFields fds' fs = .ok rec' := by
      apply ih hnd.2
      intro n hn
      rw [hfs n (by simp [hn])]
      have hne : fd.name ≠ n := fun he => hnd.1 (he ▸ hn)
      simp [recFind, hne]
    rw [decodeFields, hlook]
    simp only [coerceVal_encodeVal v fd.ty hty, ihres]

theorem map_fst_encodeFields (rec : SRecord) :
    (rec.map (fun f => (f.1, encodeVal f.2))).map Prod.fst = rec.map Prod.fst := by
  induction rec with
  | nil => rfl
  | cons f rest ih => simp [ih]

theorem decodeRecord_encodeRecord (sch : Schema) (rec : SRecord)
    (hm : ValidRecord sch rec)
    (hnd : (sch.field_definitions.map FieldDef.name).Nodup) :
    decodeRecord sch (encodeRecord rec) = .ok rec := by
  have hcond : ((rec.map (fun f => (f.1, encodeVal f.2))).map Prod.fst).Nodup ∧
      ∀ n ∈ (rec.map (fun f => (f.1, encodeVal f.2))).map Prod.fst,
        n ∈ sch.field_definitions.map FieldDef.name := by
    rw [map_fst_encodeFields]
    exact ⟨hm.names_nodup hnd, hm.names_subset⟩
  unfold encodeRecord
  rw [decodeRecord, if_pos hcond]
  exact decodeFields_of_lookup sch.field_definitions rec _ hm hnd
    (fun n _ => jLookup_encode n rec)

theorem decodeRecordList_encode (sch : Schema) (recs : List SRecord)
    (hv : ∀ r ∈ recs, ValidRecord sch r)
    (hnd : (sch.field_definitions.map FieldDef.name).Nodup) :
    decodeRecordList sch (recs.map encodeRecord) = .ok recs := by
  induction recs with
  | nil => rfl
  | cons r rest ih =>
    simp only [List.map_cons, decodeRecordList]
    rw [decodeRecord_encodeRecord sch r (hv r (by simp)) hnd,
        ih (fun r' hr' => hv r' (by simp [hr']))]

theorem decodeCollection_encodeCollection (sch : Schema) (recs : List SRecord)
    (hv : ∀ r ∈ recs, ValidRecord sch r)
    (hnd : (sch.field_definitions.map FieldDef.name).Nodup) :
    decodeCollection sch (encodeCollection recs) = .ok recs := by
  unfold encodeCollection
  rw [decodeCollection]
  exact decodeRecordList_encode sch recs hv hnd

/-!
## Claim theorems
-/

theorem engineUpsert_store (writeOk : Bool) (k : Int) (r : SRecord)
    (e : EngineState) :
    (engineUpsert writeOk k r e).1.store = dictUpsert k r e.store := by
  unfold engineUpsert writeThrough
  cases writeOk <;> rfl

/-- Claim C1, counterexample: the claim says constructing a record is a pure
value creation leaving every Collection Store (and every backing file)
unchanged, with only a separate explicit `upsert` committing it.  On this
program it is false: constructing `Order(id=1, product_id=1, quantity=10)` —
the first line of `create_initial_data` — already changes the orders store,
and `create_initial_data` populates both stores although no `upsert` call
appears anywhere in the demo. -/
theorem C1_construction_not_pure :
    constructOrder ⟨1, 1, 10⟩ emptyDemoState ≠ emptyDemoState
    ∧ (createInitialData emptyDemoState).customers ≠ emptyDemoState.customers := by
  constructor
  · intro he
    have : (constructOrder ⟨1, 1, 10⟩ emptyDemoState).orders = emptyDemoState.orders := by
      rw [he]
    exact absurd this (by decide)
  · decide

/-- Claim C1, amended: in this program constructing a record immediately
commits it into its Collection Store (keyed by `id`), leaving the other
store untouched; there is no separate `upsert` step — `create_initial_data`
alone, through construction only, populates the orders store at keys
1, 2, 3 and the customers store at keys 1, 2.  And the commit that
construction routes into does trigger the write-through: in the engine
model a successful commit of a record returns normally and leaves the
bound file holding exactly the encoded updated collection (its bytes the
deterministic rendering of that content). -/
theorem C1_construction_commits :
    (∀ (st : DemoState) (c : Customer),
      dictLookup c.id (constructCustomer c st).customers = some c
      ∧ (constructCustomer c st).orders = st.orders)
    ∧ (∀ (st : DemoState) (o : Order),
      dictLookup o.id (constructOrder o st).orders = some o
      ∧ (constructOrder o st).customers = st.customers)
    ∧ (∀ (k : Int) (r : SRecord) (e : EngineState),
      dictLookup k (engineUpsert true k r e).1.store = some r
      ∧ (engineUpsert true k r e).1.file.parsed
          = some (encodeCollection ((dictUpsert k r e.store).map Prod.snd))
      ∧ (engineUpsert true k r e).1.file.bytes
          = jsonDumps (encodeCollection ((dictUpsert k r e.store).map Prod.snd))
      ∧ (engineUpsert true k r e).2 = .ok ())
    ∧ dictKeys (createInitialData emptyDemoState).orders = [1, 2, 3]
    ∧ dictKeys (createInitialData emptyDemoState).customers = [1, 2] := by
  refine ⟨fun st c => ⟨dictLookup_dictUpsert_self _ _ _, rfl⟩,
          fun st o => ⟨dictLookup_dictUpsert_self _ _ _, rfl⟩,
          fun k r e => ⟨?_, rfl, rfl, rfl⟩,
          by decide, by decide⟩
  rw [engineUpsert_store]
  exact dictLookup_dictUpsert_self _ _ _

/-- Claim C2: two upserts with the same key `k` (regardless of whether each
disk write succeeds) leave exactly one entry at `k`, holding the second
call's values, and every other key's entry is exactly what it was before —
no partially-overwritten state is visible.  The hypothesis is the store
invariant that keys are unique before the calls. -/
theorem C2_upsert_key_unique (wo₁ wo₂ : Bool) (e : EngineState) (k : Int)
    (r1 r2 : SRecord) (h : (dictKeys e.store).Nodup) :
    ((engineUpsert wo₂ k r2 (engineUpsert wo₁ k r1 e).1).1.store.countP
        (fun p => p.1 = k) = 1)
    ∧ dictLookup k (engineUpsert wo₂ k r2 (engineUpsert wo₁ k r1 e).1).1.store
        = some r2
    ∧ ∀ k', k' ≠ k →
        dictLookup k' (engineUpsert wo₂ k r2 (engineUpsert wo₁ k r1 e).1).1.store
          = dictLookup k' e.store := by
  rw [engineUpsert_store, engineUpsert_store]
  refine ⟨countP_dictUpsert_of_nodup k r2 _ (nodup_dictKeys_dictUpsert k r1 _ h),
          dictLookup_dictUpsert_self _ _ _, ?_⟩
  intro k' hk'
  rw [dictLookup_dictUpsert_ne k k' r2 _ hk', dictLookup_dictUpsert_ne k k' r1 _ hk']

/-- Witness for C2 at the spec's example: upserting order id 1 twice
(quantity 10 then 99) into a fresh store leaves exactly one record at
key 1 carrying quantity 99. -/
theorem C2_witness :
    (dictKeys engineState0.store).Nodup
    ∧ dictLookup 1 (engineUpsert true 1 sampleOrderRec99
        (engineUpsert true 1 sampleOrderRec engineState0).1).1.store
        = some sampleOrderRec99
    ∧ ((engineUpsert true 1 sampleOrderRec99
        (engineUpsert true 1 sampleOrderRec engineState0).1).1.store.countP
          (fun p => p.1 = 1) = 1) :=
  ⟨by decide,
   (C2_upsert_key_unique true true engineState0 1 sampleOrderRec
      sampleOrderRec99 (by decide)).2.1,
   (C2_upsert_key_unique true true engineState0 1 sampleOrderRec
      sampleOrderRec99 (by decide)).1⟩

/-- Claim C3: when the watcher's reload path sees a changed file whose
content fails to decode (invalid JSON, or a record missing a required
field), the in-memory store is left unchanged, exactly one `ReloadError`
is logged, the last-known metadata is untouched, and the background loop
keeps running (the poll step is total and leaves `watcherRunning` true). -/
theorem C3_reload_error_keeps_state (sch : Schema) (e : EngineState)
    (msg : String)
    (hrun : e.watcherRunning = true)
    (hchanged : e.file.bytes ≠ e.lastKnownBytes)
    (hdec : decodeDisk sch e.file = .error msg) :
    (watcherPoll sch e).store = e.store
    ∧ (watcherPoll sch e).reloadErrors = e.reloadErrors + 1
    ∧ (watcherPoll sch e).watcherRunning = true
    ∧ (watcherPoll sch e).lastKnownBytes = e.lastKnownBytes := by
  simp [watcherPoll, hrun, hchanged, hdec]

/-- Witness for C3: an externally edited orders file holding a record with
only an `id` field (missing the required `product_id`) leaves the store
unchanged and logs exactly one `ReloadError`. -/
theorem C3_witness :
    engineStateBadEdit.watcherRunning = true
    ∧ engineStateBadEdit.file.bytes ≠ engineStateBadEdit.lastKnownBytes
    ∧ (watcherPoll ordersSchema engineStateBadEdit).store = engineStateBadEdit.store
    ∧ (watcherPoll ordersSchema engineStateBadEdit).reloadErrors
        = engineStateBadEdit.reloadErrors + 1 := by
  have h := C3_reload_error_keeps_state ordersSchema engineStateBadEdit
    "ValidationError: missing required field product_id" rfl (by decide) rfl
  exact ⟨rfl, by decide, h.1, h.2.1⟩

/-- Claim C4: a self-originated write never triggers a reload: after an
internal upsert whose write-through succeeded, the watcher's poll is a
no-op — in particular the detected-external-edit counter does not
increment, so no feedback loop of reloads can start. -/
theorem C4_self_write_suppression (sch : Schema) (k : Int) (r : SRecord)
    (e : EngineState) :
    watcherPoll sch (engineUpsert true k r e).1 = (engineUpsert true k r e).1
    ∧ (watcherPoll sch (engineUpsert true k r e).1).externalEdits
        = (engineUpsert true k r e).1.externalEdits := by
  have hpoll : watcherPoll sch (engineUpsert true k r e).1
      = (engineUpsert true k r e).1 := by
    unfold engineUpsert writeThrough watcherPoll
    simp
  exact ⟨hpoll, by rw [hpoll]⟩

/-- Claim C5: for every valid record set of a collection (with distinct
schema field names), decoding the encoding returns the same value; and the
encoded form of each record is a JSON object listing the record's fields in
order — a subsequence of the Schema's `field_definitions` order.  Encoding
is a pure function, hence deterministic (the rendered bytes `jsonDumps ∘
encodeCollection` are a function of the record state alone). -/
theorem C5_roundtrip_deterministic (sch : Schema) (recs : List SRecord)
    (hnd : (sch.field_definitions.map FieldDef.name).Nodup)
    (hv : ∀ r ∈ recs, ValidRecord sch r) :
    decodeCollection sch (encodeCollection recs) = .ok recs
    ∧ ∀ r ∈ recs,
        (∃ fs, encodeRecord r = .jobj fs ∧ fs.map Prod.fst = r.map Prod.fst)
        ∧ (r.map Prod.fst).Sublist (sch.field_definitions.map FieldDef.name) := by
  refine ⟨decodeCollection_encodeCollection sch recs hv hnd, ?_⟩
  intro r hr
  exact ⟨⟨_, rfl, map_fst_encodeFields r⟩,
         MatchesSchema.names_sublist (hv r hr)⟩

/-- Witness for C5 at the spec's example order: the singleton collection
`[{"id":1,"product_id":1,"quantity":10}]` round-trips, and its field order
follows the schema. -/
theorem C5_witness :
    decodeCollection ordersSchema (encodeCollection [sampleOrderRec])
        = .ok [sampleOrderRec]
    ∧ (sampleOrderRec.map Prod.fst).Sublist
        (ordersSchema.field_definitions.map FieldDef.name) := by
  have hv : ∀ r ∈ [sampleOrderRec], ValidRecord ordersSchema r := by
    intro r hr
    rw [List.mem_singleton] at hr
    subst hr
    exact MatchesSchema.cons rfl
      (MatchesSchema.cons rfl (MatchesSchema.cons rfl MatchesSchema.nil))
  have h := C5_roundtrip_deterministic ordersSchema [sampleOrderRec]
    (by decide) hv
  exact ⟨h.1, (h.2 sampleOrderRec (by simp)).2⟩

/-- Claim C6: when the write-through fails, `upsert` returns a
`PersistenceError` to the caller, but the in-memory mutation is not rolled
back: the store holds the new record at its key, other keys are untouched,
and the file and the binding metadata are unchanged (the atomic write
either fully lands or does not). -/
theorem C6_persistence_error_no_rollback (k : Int) (r : SRecord)
    (e : EngineState) :
    (engineUpsert false k r e).2 = .error "PersistenceError"
    ∧ (engineUpsert false k r e).1.store = dictUpsert k r e.store
    ∧ dictLookup k (engineUpsert false k r e).1.store = some r
    ∧ (engineUpsert false k r e).1.file = e.file
    ∧ (engineUpsert false k r e).1.lastKnownBytes = e.lastKnownBytes
    ∧ ∀ k', k' ≠ k →
        dictLookup k' (engineUpsert false k r e).1.store
          = dictLookup k' e.store := by
  refine ⟨rfl, rfl, ?_, rfl, rfl, ?_⟩
  · rw [engineUpsert_store]
    exact dictLookup_dictUpsert_self _ _ _
  · intro k' hk'
    rw [engineUpsert_store]
    exact dictLookup_dictUpsert_ne k k' r _ hk'

/-- Witness for C6: a failed write of order 1 still leaves the order in the
in-memory store, returns `PersistenceError`, and key 2 is unaffected. -/
theorem C6_witness :
    (engineUpsert false 1 sampleOrderRec99 engineState0).2
        = .error "PersistenceError"
    ∧ dictLookup 1 (engineUpsert false 1 sampleOrderRec99 engineState0).1.store
        = some sampleOrderRec99
    ∧ dictLookup 2 (engineUpsert false 1 sampleOrderRec99 engineState0).1.store
        = dictLookup 2 engineState0.store := by
  have h := C6_persistence_error_no_rollback 1 sampleOrderRec99 engineState0
  exact ⟨h.1, h.2.2.1, h.2.2.2.2.2 2 (by decide)⟩

/-- Claim C7: `stop()` is idempotent and safe: every call (including a call
when the watcher is already stopped, i.e. no background activity in
flight) returns normally with `Except.ok`, a second stop changes nothing,
and after stopping no background activity runs (`watcherRunning` is false
and a watcher poll is a no-op). -/
theorem C7_stop_idempotent (sch : Schema) (e : EngineState) :
    stopEngine e = .ok (stoppedState e)
    ∧ stopEngine (stoppedState e) = .ok (stoppedState e)
    ∧ stoppedState (stoppedState e) = stoppedState e
    ∧ (stoppedState e).watcherRunning = false
    ∧ watcherPoll sch (stoppedState e) = stoppedState e :=
  ⟨rfl, rfl, rfl, rfl, rfl⟩

/-- Claim C8: `next_customer_id` returns 1 on an empty customers store and
`max(keys) + 1` otherwise; within one run of the add loop the assigned ids
are strictly increasing (hence pairwise distinct) and each is strictly
greater than every key present before the loop started — which, together
with the strict increase, makes each id greater than every key present
before that customer was created.  This relies on construction committing
each customer into the store immediately. -/
theorem C8_next_customer_id (names : Nat → String) (ages : Nat → Int) :
    nextCustomerId [] = 1
    ∧ (∀ s : List (Int × Customer), s ≠ [] → nextCustomerId s = maxKeys s + 1)
    ∧ ∀ (n : Nat) (st : DemoState),
        (assignedIds names ages n st).Pairwise (· < ·)
        ∧ ∀ i ∈ assignedIds names ages n st,
            ∀ k ∈ dictKeys st.customers, k < i := by
  refine ⟨rfl, ?_, ?_⟩
  · intro s hs
    cases s with
    | nil => exact absurd rfl hs
    | cons p t => rfl
  · intro n
    induction n with
    | zero =>
      intro st
      exact ⟨List.Pairwise.nil, by simp [assignedIds]⟩
    | succ m ih =>
      intro st
      have hkeys : dictKeys (addRandomCustomer names ages st).customers
          = dictKeys st.customers ++ [nextCustomerId st.customers] :=
        dictKeys_addRandomCustomer names ages st
      have ih' := ih (addRandomCustomer names ages st)
      constructor
      · simp only [assignedIds]
        refine List.Pairwise.cons ?_ ih'.1
        intro i hi
        exact ih'.2 i hi (nextCustomerId st.customers) (by rw [hkeys]; simp)
      · intro i hi k hk
        simp only [assignedIds] at hi
        rcases List.mem_cons.mp hi with hi | hi
        · rw [hi]
          exact key_lt_nextCustomerId st.customers k hk
        · exact ih'.2 i hi k (by rw [hkeys]; exact List.mem_append_left _ hk)

/-- Witness for C8: an empty store yields id 1; a store with keys 3 and 1
yields id 4 = max + 1. -/
theorem C8_witness :
    nextCustomerId [] = 1
    ∧ nextCustomerId
        [(3, (⟨3, "Jane Doe", 28, []⟩ : Customer)),
         (1, (⟨1, "John Doe", 31, []⟩ : Customer))] = 4 := by
  refine ⟨(C8_next_customer_id demoNames demoAges).1, ?_⟩
  have h := (C8_next_customer_id demoNames demoAges).2.1
    [(3, (⟨3, "Jane Doe", 28, []⟩ : Customer)),
     (1, (⟨1, "John Doe", 31, []⟩ : Customer))] (by simp)
  rw [h]
  decide

/-- Claim C9, counterexample: the claim reads the parsed number as "the
text after the first '-'"; for the input `"a--3"` that text is `"-3"`,
which parses to N = -3, so the claim predicts the message reports -3
("Added -3 customers.").  The code instead takes `choice.split("-")[1]`,
the empty segment between the two dashes, falls back to 1, and prints
"Added 1 customer.". -/
theorem C9_counterexample :
    claimedN (normalizeCmd "a--3") = -3
    ∧ (mainStep demoNames demoAges "a--3" emptyDemoState).out
        = .addedMsg true (addedMessage 1)
    ∧ addedMessage 1 ≠ addedMessage (claimedN (normalizeCmd "a--3")) := by
  refine ⟨by decide, by decide, by decide⟩

/-- Claim C9, amended: for every input whose normalized form starts with
'a', the demo parses the segment between the first and second '-'
(`choice.split("-")[1]`) as an integer N, falling back to 1 on a missing
segment or a parse failure; it then adds exactly `max(1, N)` customers
while the printed message reports the unadjusted N (so after `"a-0"`, one
customer is added but the message says "Added 0 customers."), and the loop
continues. -/
theorem C9_add_branch (names : Nat → String) (ages : Nat → Int)
    (raw : String) (st : DemoState)
    (h : (normalizeCmd raw).head? = some 'a') :
    (mainStep names ages raw st).state.customers.length
      = st.customers.length + (max 1 (aBranchN (normalizeCmd raw)).2).toNat
    ∧ (mainStep names ages raw st).out
      = .addedMsg (aBranchN (normalizeCmd raw)).1
          (addedMessage (aBranchN (normalizeCmd raw)).2)
    ∧ (mainStep names ages raw st).quit = false
    ∧ ((aBranchN (normalizeCmd raw)).2 ≤ 0
        → (max 1 (aBranchN (normalizeCmd raw)).2).toNat = 1) := by
  have ho : normalizeCmd raw ≠ ['o'] := by intro he; rw [he] at h; simp at h
  have hp : normalizeCmd raw ≠ ['p'] := by intro he; rw [he] at h; simp at h
  have hf : normalizeCmd raw ≠ ['f'] := by intro he; rw [he] at h; simp at h
  simp only [mainStep]
  rw [if_neg ho, if_neg hp, if_neg hf, if_pos h]
  refine ⟨length_addCustomersLoop names ages _ st, rfl, rfl, ?_⟩
  intro h0
  have hmax : max 1 (aBranchN (normalizeCmd raw)).2 = 1 :=
    max_eq_left (by omega)
  rw [hmax]
  rfl

/-- Witness for C9 (amended) at input "a-0": one customer is added while
the message reports 0. -/
theorem C9_witness :
    (normalizeCmd "a-0").head? = some 'a'
    ∧ (mainStep demoNames demoAges "a-0" emptyDemoState).state.customers.length
        = emptyDemoState.customers.length
            + (max 1 (aBranchN (normalizeCmd "a-0")).2).toNat
    ∧ (mainStep demoNames demoAges "a-0" emptyDemoState).out
        = .addedMsg (aBranchN (normalizeCmd "a-0")).1
            (addedMessage (aBranchN (normalizeCmd "a-0")).2) :=
  ⟨by decide,
   (C9_add_branch demoNames demoAges "a-0" emptyDemoState (by decide)).1,
   (C9_add_branch demoNames demoAges "a-0" emptyDemoState (by decide)).2.1⟩

/-- Claim C10: the loop matches commands on the stripped, lowercased input
(the step's behavior depends only on that normalized form, so commands are
case- and padding-insensitive: " Q " quits, "P" prints the in-memory
state), and any input whose normalized form is none of the known commands
(`o`, `p`, `f`, `q`, or the `a`-family) prints the unknown-command message
and leaves the state unchanged. -/
theorem C10_normalized_matching (names : Nat → String) (ages : Nat → Int) :
    (∀ (raw₁ raw₂ : String) (st : DemoState),
        normalizeCmd raw₁ = normalizeCmd raw₂ →
        mainStep names ages raw₁ st = mainStep names ages raw₂ st)
    ∧ (∀ st : DemoState,
        mainStep names ages " Q " st = ⟨st, .stoppedQuit, true⟩)
    ∧ (∀ st : DemoState,
        mainStep names ages "P" st = ⟨st, .printedMemory, false⟩)
    ∧ ∀ (raw : String) (st : DemoState),
        isKnownCmd (normalizeCmd raw) = false →
        mainStep names ages raw st = ⟨st, .unknownMsg, false⟩ := by
  refine ⟨?_, fun st => rfl, fun st => rfl, ?_⟩
  · intro r₁ r₂ st he
    unfold mainStep
    rw [he]
  · intro raw st h
    simp only [isKnownCmd, Bool.or_eq_false_iff, beq_eq_false_iff_ne, ne_eq] at h
    obtain ⟨⟨⟨⟨h1, h2⟩, h3⟩, h4⟩, h5⟩ := h
    simp only [mainStep]
    rw [if_neg h1, if_neg h2, if_neg h3, if_neg h5, if_neg h4]

/-- Witness for C10: " hello " is not a known command; the step prints the
unknown-command message and leaves the state unchanged. -/
theorem C10_witness :
    isKnownCmd (normalizeCmd " hello ") = false
    ∧ mainStep demoNames demoAges " hello " emptyDemoState
        = ⟨emptyDemoState, .unknownMsg, false⟩ :=
  ⟨by decide,
   (C10_normalized_matching demoNames demoAges).2.2.2 " hello "
     emptyDemoState (by decide)⟩
